import Mathlib

/-!
# podcaster: the catalog store and the poll / download loops

A shallow embedding of `db.go` and `podcast.go`.

The SQLite database behind `DB` is a value of type `Store`: one list of rows per
table, in rowid order, together with the AUTOINCREMENT counters of the two tables
that use one.  The `timestamp` / `update_time` columns hold wall-clock readings and
are not part of the rows.  Rows carry the owner / subscription reference the program
always writes (the columns are never left NULL by this code).

Every statement sent to the database may fail for reasons outside the program
(I/O, locking).  A run therefore takes a fault schedule `faults : List Bool`: each
statement consumes the head of the list, `true` meaning that the driver returned an
error for it and the statement changed nothing; an exhausted schedule means no more
faults.
-/

namespace Podcaster

/-! ## Rows and store -/

/-- Errors a statement can return. -/
inductive StoreError where
  | io
  | constraint
  | full
deriving DecidableEq

/-- A row of table podcasts. -/
structure PodcastRow where
  id : Int
  user_id : Int
  name : String
  xml_url : String
  html_url : String
  image_url : String
deriving DecidableEq

/-- A row of table episodes. -/
structure EpisodeRow where
  id : Int
  podcast_id : Int
  url : String
  file_name : Option String
  downloaded : Int
deriving DecidableEq

/-- A row of table archived_episodes. -/
structure ArchivedEpisodeRow where
  id : Int
  original_episode_id : Int
  podcast_id : Int
  url : String
  downloaded : Int
deriving DecidableEq

/-- The database: its three relations and the two AUTOINCREMENT counters. -/
structure Store where
  podcasts : List PodcastRow
  episodes : List EpisodeRow
  episodesSeq : Int
  archived_episodes : List ArchivedEpisodeRow
  archivedSeq : Int
deriving DecidableEq

/-- A freshly initialised database (InitializeDatabase on a new file). -/
def emptyStore : Store := ⟨[], [], 0, [], 0⟩

/-! ## Go values -/

/-- The struct Podcast of db.go. -/
structure Podcast where
  Id : Int
  Text : String
  XMLUrl : String
  HTMLUrl : String
  ImageUrl : String
deriving DecidableEq

/-- The struct Episode of db.go. -/
structure Episode where
  Id : Int
  PodcastName : String
  URL : String
deriving DecidableEq

/-- The struct Image of podcast.go. -/
structure Image where
  Url : String
deriving DecidableEq

/-- The struct Enclosure of podcast.go. -/
structure Enclosure where
  Url : String
deriving DecidableEq

/-- The struct Item of podcast.go (without the XMLName tag). -/
structure Item where
  Title : String
  Description : String
  PubDate : String
  Link : String
  Image : Image
  Enclosure : Enclosure
deriving DecidableEq

/-- The struct Channel of podcast.go. -/
structure Channel where
  Title : String
  Description : String
  Language : String
  Item : List Item
deriving DecidableEq

/-- The struct Rss of podcast.go. -/
structure Rss where
  Channel : Channel
deriving DecidableEq

/-! ## Statements -/

/-- Largest rowid of SQLite. -/
def maxInt64 : Int := 9223372036854775807

/-- Go int arithmetic: reduce into the signed 64-bit range. -/
def wrap64 (x : Int) : Int := (x + 9223372036854775808) % 18446744073709551616 - 9223372036854775808

/-- The head of the fault schedule: does the next statement fail? -/
def faultNow (faults : List Bool) : Bool := faults.headD false

/-- The rowid an AUTOINCREMENT table gives to the next row: one more than the
largest rowid the table ever held. -/
def nextRowid (seq : Int) (ids : List Int) : Int := max seq (ids.foldl max 0) + 1

/-- SELECT id, url, downloaded FROM episodes WHERE podcast_id = ? AND url = ?
read with QueryRow: the first matching row, none for sql.ErrNoRows. -/
def selectEpisode (s : Store) (podcastId : Int) (url : String) : Option EpisodeRow :=
  s.episodes.find? (fun r => decide (r.podcast_id = podcastId ∧ r.url = url))

/-- INSERT INTO episodes(podcast_id, url) VALUES (?, ?): file_name is NULL,
downloaded takes its default 0. -/
def insertEpisode (s : Store) (podcastId : Int) (url : String) : Except StoreError Store :=
  let id := nextRowid s.episodesSeq (s.episodes.map (fun r => r.id))
  if id ≤ maxInt64 then
    .ok { s with episodes := s.episodes ++ [⟨id, podcastId, url, none, 0⟩], episodesSeq := id }
  else .error .full

/-- INSERT INTO archived_episodes(original_episode_id, podcast_id, url, downloaded, timestamp). -/
def insertArchivedEpisode (s : Store) (originalId podcastId : Int) (url : String)
    (downloaded : Int) : Except StoreError Store :=
  let id := nextRowid s.archivedSeq (s.archived_episodes.map (fun r => r.id))
  if id ≤ maxInt64 then
    .ok { s with
      archived_episodes := s.archived_episodes ++ [⟨id, originalId, podcastId, url, downloaded⟩],
      archivedSeq := id }
  else .error .full

/-- UPDATE episodes SET url = ? WHERE id = ?. -/
def updateEpisodeUrl (s : Store) (url : String) (id : Int) : Store :=
  { s with episodes := s.episodes.map (fun r => if r.id = id then { r with url := url } else r) }

/-- UPDATE episodes SET downloaded = 1, file_name = ? WHERE id = ?. -/
def updateEpisodeDownloaded (s : Store) (fileName : String) (id : Int) : Store :=
  let mark := fun (r : EpisodeRow) =>
    if r.id = id then { r with downloaded := 1, file_name := some fileName } else r
  { s with episodes := s.episodes.map mark }

/-! ## InsertEpisodesToDB -/

/-- What one iteration of the loop of InsertEpisodesToDB leaves behind. -/
structure ItemOutcome where
  store : Store
  faults : List Bool
  inserted : Nat
  err : Option StoreError

/-- The body of the for loop of InsertEpisodesToDB (db.go 194-242) for one item. -/
def insertEpisodesItem (podcastId : Int) (item : Item) (s : Store) (faults : List Bool) :
    ItemOutcome :=
  -- QueryRow(SELECT ...).Scan(...)
  if faultNow faults then ⟨s, faults.tail, 0, some .io⟩
  else
    let faults := faults.tail
    match selectEpisode s podcastId item.Enclosure.Url with
    | none =>
      -- err == sql.ErrNoRows: insert new episode
      if faultNow faults then ⟨s, faults.tail, 0, some .io⟩
      else
        match insertEpisode s podcastId item.Enclosure.Url with
        | .error e => ⟨s, faults.tail, 0, some e⟩
        | .ok s1 => ⟨s1, faults.tail, 1, none⟩
    | some existingEpisode =>
      if existingEpisode.url ≠ item.Enclosure.Url then
        -- archive the existing episode
        if faultNow faults then ⟨s, faults.tail, 0, some .io⟩
        else
          match insertArchivedEpisode s existingEpisode.id podcastId existingEpisode.url
              existingEpisode.downloaded with
          | .error e => ⟨s, faults.tail, 0, some e⟩
          | .ok s1 =>
            let faults := faults.tail
            -- update the current episode
            if faultNow faults then ⟨s1, faults.tail, 0, some .io⟩
            else ⟨updateEpisodeUrl s1 item.Enclosure.Url existingEpisode.id, faults.tail, 0, none⟩
      else ⟨s, faults, 0, none⟩

/-- The result of InsertEpisodesToDB: the database it leaves and its two return values. -/
structure InsertEpisodesResult where
  store : Store
  count : Nat
  err : Option StoreError
deriving DecidableEq

/-- The loop of InsertEpisodesToDB with its counter newEpisodesCount. -/
def insertEpisodesLoop (podcastId : Int) :
    List Item → Store → List Bool → Nat → InsertEpisodesResult
  | [], s, _, newEpisodesCount => ⟨s, newEpisodesCount, none⟩
  | item :: rest, s, faults, newEpisodesCount =>
    let o := insertEpisodesItem podcastId item s faults
    match o.err with
    | some e => ⟨o.store, newEpisodesCount + o.inserted, some e⟩
    | none => insertEpisodesLoop podcastId rest o.store o.faults (newEpisodesCount + o.inserted)

/-- InsertEpisodesToDB of db.go. -/
def InsertEpisodesToDB (s : Store) (faults : List Bool) (podcastId : Int) (episodes : List Item) :
    InsertEpisodesResult :=
  insertEpisodesLoop podcastId episodes s faults 0

/-- MarkEpisodeAsDownloaded of db.go: the database it leaves and the error it returns. -/
def MarkEpisodeAsDownloaded (s : Store) (fault : Bool) (episodeId : Int) (fileName : String) :
    Store × Option StoreError :=
  if fault then (s, some .io) else (updateEpisodeDownloaded s fileName episodeId, none)

/-- A feed item that carries only a media address. -/
def itemOf (url : String) : Item := ⟨"", "", "", "", ⟨""⟩, ⟨url⟩⟩

/-- The row INSERT INTO episodes appends. -/
def newEpisodeRow (s : Store) (podcastId : Int) (url : String) : EpisodeRow :=
  ⟨nextRowid s.episodesSeq (s.episodes.map (fun r => r.id)), podcastId, url, none, 0⟩

/-- The (subscription, address) pairs of the episode rows, in table order. -/
def episodeKeys (s : Store) : List (Int × String) :=
  s.episodes.map (fun r => (r.podcast_id, r.url))

/-- One call of InsertEpisodesToDB: its arguments and the fault schedule it meets. -/
structure ReconcileCall where
  podcastId : Int
  episodes : List Item
  faults : List Bool

/-- The database after a sequence of calls of InsertEpisodesToDB. -/
def reconcileAll (s : Store) (calls : List ReconcileCall) : Store :=
  calls.foldl (fun t c => (InsertEpisodesToDB t c.faults c.podcastId c.episodes).store) s

/-! ## InsertPodcastsToDB and GetPodcastsFromDB

The ids of podcasts are always given explicitly by the program, so the AUTOINCREMENT
counter of that table is never consulted and is left out of the store. -/

/-- SELECT id FROM podcasts WHERE user_id = ? AND name = ? read with QueryRow. -/
def selectPodcastId (s : Store) (userID : Int) (name : String) : Option Int :=
  (s.podcasts.find? (fun r => decide (r.user_id = userID ∧ r.name = name))).map (fun r => r.id)

/-- SELECT MAX(id) FROM podcasts: NULL (none) on an empty table. -/
def selectMaxPodcastId (s : Store) : Option Int :=
  (s.podcasts.map (fun r => r.id)).max?

/-- INSERT INTO podcasts(id, user_id, name, xml_url, html_url, image_url): refused when
the id (PRIMARY KEY) or the pair (user_id, name) (UNIQUE) is already there. -/
def insertPodcast (s : Store) (row : PodcastRow) : Except StoreError Store :=
  if s.podcasts.any (fun r => decide (r.id = row.id)) ||
      s.podcasts.any (fun r => decide (r.user_id = row.user_id ∧ r.name = row.name)) then
    .error .constraint
  else .ok { s with podcasts := s.podcasts ++ [row] }

/-- The assignment SET xml_url = ?, html_url = ?, image_url = ? on one row. -/
def setPodcastUrls (xml html image : String) (r : PodcastRow) : PodcastRow :=
  { r with xml_url := xml, html_url := html, image_url := image }

/-- UPDATE podcasts SET xml_url = ?, html_url = ?, image_url = ? WHERE id = ?. -/
def updatePodcastUrls (s : Store) (xml html image : String) (id : Int) : Store :=
  { s with podcasts :=
      s.podcasts.map (fun r => if r.id = id then setPodcastUrls xml html image r else r) }

/-- What one iteration of the loop of InsertPodcastsToDB leaves behind. -/
structure PodcastOutcome where
  store : Store
  faults : List Bool
  err : Option StoreError

/-- The id InsertPodcastsToDB computes for a new row: 1 on an empty table, else
int(maxID.Int64) + 1 in Go int arithmetic. -/
def nextPodcastId (s : Store) : Int :=
  match selectMaxPodcastId s with
  | some maxID => wrap64 (maxID + 1)
  | none => 1

/-- The body of the for loop of InsertPodcastsToDB (db.go 122-165) for one podcast. -/
def insertPodcastsItem (userID : Int) (podcast : Podcast) (s : Store) (faults : List Bool) :
    PodcastOutcome :=
  -- QueryRow(SELECT id ...).Scan(&existingID)
  if faultNow faults then ⟨s, faults.tail, some .io⟩
  else
    let faults := faults.tail
    match selectPodcastId s userID podcast.Text with
    | none =>
      -- QueryRow(SELECT MAX(id) ...).Scan(&maxID)
      if faultNow faults then ⟨s, faults.tail, some .io⟩
      else
        let faults := faults.tail
        let nextID := nextPodcastId s
        if faultNow faults then ⟨s, faults.tail, some .io⟩
        else
          match insertPodcast s
              ⟨nextID, userID, podcast.Text, podcast.XMLUrl, podcast.HTMLUrl, podcast.ImageUrl⟩ with
          | .error e => ⟨s, faults.tail, some e⟩
          | .ok s1 => ⟨s1, faults.tail, none⟩
    | some existingID =>
      if faultNow faults then ⟨s, faults.tail, some .io⟩
      else
        ⟨updatePodcastUrls s podcast.XMLUrl podcast.HTMLUrl podcast.ImageUrl existingID,
          faults.tail, none⟩

/-- InsertPodcastsToDB of db.go: the database it leaves and the error it returns. -/
def InsertPodcastsToDB (s : Store) (faults : List Bool) (userID : Int) :
    List Podcast → Store × Option StoreError
  | [] => (s, none)
  | podcast :: rest =>
    let o := insertPodcastsItem userID podcast s faults
    match o.err with
    | some e => (o.store, some e)
    | none => InsertPodcastsToDB o.store o.faults userID rest

/-- GetPodcastsFromDB of db.go on a query that succeeds: SELECT id, xml_url FROM podcasts
WHERE user_id = ?, scanned into Podcast values. -/
def GetPodcastsFromDB (s : Store) (userID : Int) : List Podcast :=
  (s.podcasts.filter (fun r => decide (r.user_id = userID))).map
    (fun r => ⟨r.id, "", r.xml_url, "", ""⟩)

/-- The key of a podcast row: the columns no UPDATE of the program writes. -/
def rowKey (r : PodcastRow) : Int × Int × String := (r.id, r.user_id, r.name)

/-- The keys of the podcast rows, in table order. -/
def podcastKeys (s : Store) : List (Int × Int × String) :=
  s.podcasts.map rowKey

/-- The constraint UNIQUE(user_id, name) of table podcasts. -/
def UniqueOwnerName (s : Store) : Prop :=
  (s.podcasts.map (fun r => (r.user_id, r.name))).Nodup

instance (s : Store) : Decidable (UniqueOwnerName s) := by
  unfold UniqueOwnerName; infer_instance

/-! ## Operations on the store, as a sequence -/

/-- The three operations of db.go that write episodes or podcasts, with their arguments
and the faults they meet. -/
inductive Op where
  | insertPodcasts (faults : List Bool) (userID : Int) (podcasts : List Podcast)
  | insertEpisodes (faults : List Bool) (podcastId : Int) (episodes : List Item)
  | markDownloaded (fault : Bool) (episodeId : Int) (fileName : String)

/-- The database after one operation. -/
def applyOp (s : Store) : Op → Store
  | .insertPodcasts faults userID podcasts => (InsertPodcastsToDB s faults userID podcasts).1
  | .insertEpisodes faults podcastId episodes =>
    (InsertEpisodesToDB s faults podcastId episodes).store
  | .markDownloaded fault episodeId fileName =>
    (MarkEpisodeAsDownloaded s fault episodeId fileName).1

/-- The database after a sequence of operations. -/
def applyOps (s : Store) (ops : List Op) : Store := ops.foldl applyOp s

/-- Row by row, the second table still holds the rows of the first, in place, with the
same id, subscription and address, and downloaded wherever the first was. -/
def KeepsDownloaded (a b : List EpisodeRow) : Prop :=
  ∀ (i : Nat) (r : EpisodeRow), a[i]? = some r →
    ∃ r2 : EpisodeRow, b[i]? = some r2 ∧ r2.id = r.id ∧ r2.podcast_id = r.podcast_id ∧
      r2.url = r.url ∧ (r.downloaded = 1 → r2.downloaded = 1)

/-- The scenario of the specification: a first poll of subscription 1 sees ep1.mp3 and
ep2.mp3 on an empty database, the episode of ep1.mp3 (id 1) is downloaded, and the next poll
sees ep1-fixed.mp3 in place of ep1.mp3. -/
def addressChangeScenario : InsertEpisodesResult :=
  InsertEpisodesToDB
    (MarkEpisodeAsDownloaded
      (InsertEpisodesToDB emptyStore [] 1 [itemOf "ep1.mp3", itemOf "ep2.mp3"]).store
      false 1 "1_ep1.mp3").1
    [] 1 [itemOf "ep1-fixed.mp3", itemOf "ep2.mp3"]

/-! ## CheckForNewEpisodes

ParseRSSFeed reads the network, so its result is an input: each subscription is assigned
what the poll meets for it. UpdatePodcastInfo is called by CheckForNewEpisodes but db.go
does not define it; its effect on the database when it succeeds is the argument
updateInfo of the loop, about which nothing is assumed, and whether it fails is part of
the assignment (a call that fails is taken to have written nothing, like every failed
statement here). -/

/-- What a poll meets for one subscription. -/
structure PollOutcome where
  /-- the result of ParseRSSFeed, none for an error -/
  feed : Option Rss
  /-- UpdatePodcastInfo returns an error -/
  updateFault : Bool
  /-- the fault schedule InsertEpisodesToDB meets -/
  insertFaults : List Bool

/-- The constant DEFAULT_USER_ID of app.go. -/
def DEFAULT_USER_ID : Int := 1

/-- The conversion of the channel items to the slice given to InsertEpisodesToDB
(podcast.go 117-127). -/
def feedEpisodes (rss : Rss) : List Item :=
  rss.Channel.Item.map
    (fun item => ⟨item.Title, item.Description, item.PubDate, item.Link, item.Image,
      item.Enclosure⟩)

/-- The loop of CheckForNewEpisodes (podcast.go 102-136) with its counter. -/
def checkLoop (updateInfo : Store → Int → String → String → String → Store)
    (env : Podcast → PollOutcome) : List Podcast → Store → Nat → Store × Nat
  | [], s, newEpisodesCount => (s, newEpisodesCount)
  | p :: rest, s, newEpisodesCount =>
    match (env p).feed with
    | none => checkLoop updateInfo env rest s newEpisodesCount
    | some rss =>
      if (env p).updateFault then checkLoop updateInfo env rest s newEpisodesCount
      else
        let s1 := updateInfo s p.Id rss.Channel.Title rss.Channel.Description
          rss.Channel.Language
        let r := InsertEpisodesToDB s1 (env p).insertFaults p.Id (feedEpisodes rss)
        checkLoop updateInfo env rest r.store (newEpisodesCount + r.count)

/-- CheckForNewEpisodes of podcast.go: the database it leaves and the total it reports
(none when the subscriptions could not be listed and nothing is reported). -/
def CheckForNewEpisodes (updateInfo : Store → Int → String → String → String → Store)
    (s : Store) (listFault : Bool) (env : Podcast → PollOutcome) : Store × Option Nat :=
  if listFault then (s, none)
  else
    let r := checkLoop updateInfo env (GetPodcastsFromDB s DEFAULT_USER_ID) s 0
    (r.1, some r.2)

/-- A subscription is reconciled when its fetch and its metadata update both succeed. -/
def reconciled (env : Podcast → PollOutcome) (p : Podcast) : Bool :=
  (env p).feed.isSome && !(env p).updateFault

/-- One call of InsertEpisodesToDB made by a poll: the subscription, the database when the
call was made, the items passed and what the call returned. -/
structure Reconciliation where
  podcast : Podcast
  before : Store
  items : List Item
  result : InsertEpisodesResult

/-- The calls of InsertEpisodesToDB a poll makes, in order. -/
def reconciliations (updateInfo : Store → Int → String → String → String → Store)
    (env : Podcast → PollOutcome) : List Podcast → Store → List Reconciliation
  | [], _ => []
  | p :: rest, s =>
    match (env p).feed with
    | none => reconciliations updateInfo env rest s
    | some rss =>
      if (env p).updateFault then reconciliations updateInfo env rest s
      else
        let s1 := updateInfo s p.Id rss.Channel.Title rss.Channel.Description
          rss.Channel.Language
        let r := InsertEpisodesToDB s1 (env p).insertFaults p.Id (feedEpisodes rss)
        ⟨p, s1, feedEpisodes rss, r⟩ :: reconciliations updateInfo env rest r.store

/-! ## DownloadNewEpisodes

The file system and the network are inputs: each pending episode is assigned the outcome
of os.MkdirAll, of grab.NewRequest, of the transfer and of the UPDATE that marks it. -/

/-- What a download run meets for one pending episode. -/
structure DownloadOutcome where
  /-- os.MkdirAll returns no error -/
  mkdirOk : Bool
  /-- grab.NewRequest returns no error -/
  requestOk : Bool
  /-- resp.Err() is nil -/
  transferOk : Bool
  /-- the statement of MarkEpisodeAsDownloaded fails -/
  markFault : Bool
deriving DecidableEq

/-- The errors DownloadNewEpisodes returns. -/
inductive DownloadError where
  | store (e : StoreError)
  | mkdir
  | request
deriving DecidableEq

/-- GetNewEpisodesFromDB of db.go on a query that succeeds: the join of the not-downloaded
episodes with their podcast. -/
def GetNewEpisodesFromDB (s : Store) : List Episode :=
  (s.episodes.filter (fun e => decide (e.downloaded = 0))).flatMap
    (fun e => (s.podcasts.filter (fun p => decide (e.podcast_id = p.id))).map
      (fun p => ⟨e.id, p.name, e.url⟩))

/-- The verb %d of fmt on an int: decimal digits, with a minus sign when negative. -/
def fmtInt : Int → String
  | Int.ofNat n => Nat.repr n
  | Int.negSucc n => "-" ++ Nat.repr (n + 1)

/-- filepath.Base of the Go library on a slash-separated path. -/
def Base (path : String) : String :=
  if path = "" then "."
  else
    -- strip trailing slashes, then keep what follows the last slash
    let stripped := path.data.reverse.dropWhile (fun c => c == '/')
    let last := (stripped.takeWhile (fun c => c != '/')).reverse
    if last = [] then "/" else String.mk last

/-- The destination file name (podcast.go 159): fmt.Sprintf of "%d_%s" on the episode id
and the base of its address. -/
def fileName (episode : Episode) : String :=
  fmtInt episode.Id ++ "_" ++ Base episode.URL

/-- The loop of DownloadNewEpisodes (podcast.go 150-182). -/
def downloadLoop (env : Episode → DownloadOutcome) :
    List Episode → Store → Store × Option DownloadError
  | [], s => (s, none)
  | episode :: rest, s =>
    if !(env episode).mkdirOk then (s, some .mkdir)
    else if !(env episode).requestOk then (s, some .request)
    else if (env episode).transferOk then
      -- mark the episode as downloaded; a failure to mark is logged only
      downloadLoop env rest
        (MarkEpisodeAsDownloaded s (env episode).markFault episode.Id (fileName episode)).1
    else
      -- download failed: logged only
      downloadLoop env rest s

/-- DownloadNewEpisodes of podcast.go: the database it leaves and the error it returns.
The closing filepath.Walk has a callback that always returns nil, so it returns nil. -/
def DownloadNewEpisodes (s : Store) (listFault : Bool) (env : Episode → DownloadOutcome) :
    Store × Option DownloadError :=
  if listFault then (s, some (.store .io))
  else downloadLoop env (GetNewEpisodesFromDB s) s

/-- A database with one subscription and two pending episodes; the address of the first is
not a URL that can be parsed (a bad percent escape). -/
def badAddressStore : Store :=
  ⟨[⟨1, 1, "Tech Talk", "http://example.com/feed.xml", "", ""⟩],
   [⟨1, 1, "http://example.com/%zz.mp3", none, 0⟩, ⟨2, 1, "http://example.com/ep2.mp3", none, 0⟩],
   2, [], 0⟩

/-- The outcomes for badAddressStore: every directory is created and every transfer would
succeed, but no request can be built for the unparsable address. -/
def badAddressEnv (episode : Episode) : DownloadOutcome :=
  ⟨true, episode.URL != "http://example.com/%zz.mp3", true, false⟩

/-- A feed with the given media addresses. -/
def feedOf (urls : List String) : Rss := ⟨⟨"Tech Talk", "", "en", urls.map itemOf⟩⟩

/-- Outcomes of a poll of three subscriptions: the fetch of 1 fails, the metadata update of 2
fails, 3 is fetched with two items. -/
def samplePoll (p : Podcast) : PollOutcome :=
  if p.Id = 1 then ⟨none, false, []⟩
  else if p.Id = 2 then ⟨some (feedOf ["a.mp3"]), true, []⟩
  else ⟨some (feedOf ["ep1.mp3", "ep2.mp3"]), false, []⟩

/-- The lookup of selectPodcastId, on the keys of the rows. -/
def keyLookup (keys : List (Int × Int × String)) (userID : Int) (name : String) : Option Int :=
  (keys.find? (fun k => decide (k.2.1 = userID ∧ k.2.2 = name))).map (fun k => k.1)

/-- One UPDATE of the addresses, as seen by a single row. -/
def writeRow (w : Int × String × String × String) (r : PodcastRow) : PodcastRow :=
  if r.id = w.1 then setPodcastUrls w.2.1 w.2.2.1 w.2.2.2 r else r

/-- The addresses the last of a sequence of UPDATEs gives to the rows of an id, if any does. -/
def lastWrite : List (Int × String × String × String) → Int → Option (String × String × String)
  | [], _ => none
  | w :: ws, id =>
    match lastWrite ws id with
    | some u => some u
    | none => if id = w.1 then some w.2 else none

/-- The effect of a sequence of UPDATEs of the addresses on a single row. -/
def applyWrites (ws : List (Int × String × String × String)) (r : PodcastRow) : PodcastRow :=
  match lastWrite ws r.id with
  | some u => setPodcastUrls u.1 u.2.1 u.2.2 r
  | none => r

/-- A subscription list that names Tech Talk twice, with different addresses. -/
def sampleImport : List Podcast :=
  [⟨0, "Tech Talk", "http://a.example/feed", "http://a.example", "http://a.example/i.png"⟩,
   ⟨0, "Other", "http://o.example/feed", "", ""⟩,
   ⟨0, "Tech Talk", "http://b.example/feed", "http://b.example", "http://b.example/i.png"⟩]

/-! ## Lemmas on InsertEpisodesToDB -/

theorem selectEpisode_some {s : Store} {podcastId : Int} {url : String} {r : EpisodeRow}
    (h : selectEpisode s podcastId url = some r) :
    r ∈ s.episodes ∧ r.podcast_id = podcastId ∧ r.url = url := by
  unfold selectEpisode at h
  have h1 := List.find?_some h
  have h2 := List.mem_of_find?_eq_some h
  simp at h1
  exact ⟨h2, h1.1, h1.2⟩

theorem selectEpisode_none {s : Store} {podcastId : Int} {url : String} :
    selectEpisode s podcastId url = none ↔
      ∀ r ∈ s.episodes, ¬ (r.podcast_id = podcastId ∧ r.url = url) := by
  unfold selectEpisode
  simp [List.find?_eq_none]

theorem selectEpisode_isSome {s : Store} {podcastId : Int} {url : String} :
    (selectEpisode s podcastId url).isSome ↔
      ∃ r ∈ s.episodes, r.podcast_id = podcastId ∧ r.url = url := by
  constructor
  · intro h
    obtain ⟨r, hr⟩ := Option.isSome_iff_exists.mp h
    exact ⟨r, selectEpisode_some hr⟩
  · rintro ⟨r, hr, hk⟩
    cases hs : selectEpisode s podcastId url with
    | some x => rfl
    | none => exact absurd hk (selectEpisode_none.mp hs r hr)

/-- One iteration either leaves the database as it is and counts nothing, or finds no row
for the address and appends one not-downloaded row for it, counting one. -/
theorem insertEpisodesItem_cases (podcastId : Int) (item : Item) (s : Store) (faults : List Bool) :
    ((insertEpisodesItem podcastId item s faults).store = s ∧
      (insertEpisodesItem podcastId item s faults).inserted = 0 ∧
      ((insertEpisodesItem podcastId item s faults).err = none →
        (selectEpisode s podcastId item.Enclosure.Url).isSome)) ∨
    (selectEpisode s podcastId item.Enclosure.Url = none ∧
      (insertEpisodesItem podcastId item s faults).err = none ∧
      (insertEpisodesItem podcastId item s faults).inserted = 1 ∧
      (insertEpisodesItem podcastId item s faults).store =
        { s with episodes := s.episodes ++ [newEpisodeRow s podcastId item.Enclosure.Url],
                 episodesSeq := (newEpisodeRow s podcastId item.Enclosure.Url).id }) := by
  unfold insertEpisodesItem
  by_cases hf : faultNow faults = true
  · left; simp [hf]
  · simp only [hf]
    cases hsel : selectEpisode s podcastId item.Enclosure.Url with
    | none =>
      by_cases hf2 : faultNow faults.tail = true
      · left; simp [hf2]
      · simp only [hf2]
        unfold insertEpisode
        by_cases hid : nextRowid s.episodesSeq (s.episodes.map (fun r => r.id)) ≤ maxInt64
        · right; simp [hid, newEpisodeRow]
        · left; simp [hid]
    | some existingEpisode =>
      have hurl := (selectEpisode_some hsel).2.2
      left; simp [hurl]

theorem insertEpisodesLoop_cons (podcastId : Int) (item : Item) (rest : List Item) (s : Store)
    (faults : List Bool) (n : Nat) :
    insertEpisodesLoop podcastId (item :: rest) s faults n =
      match (insertEpisodesItem podcastId item s faults).err with
      | some e => ⟨(insertEpisodesItem podcastId item s faults).store,
          n + (insertEpisodesItem podcastId item s faults).inserted, some e⟩
      | none => insertEpisodesLoop podcastId rest (insertEpisodesItem podcastId item s faults).store
          (insertEpisodesItem podcastId item s faults).faults
          (n + (insertEpisodesItem podcastId item s faults).inserted) := by
  rw [insertEpisodesLoop]

/-- The shape of every run of the loop: rows are only appended to episodes, one per counted
item, each for the given subscription, not downloaded, for an address of the list that had
no row before, and no two for the same address. -/
theorem insertEpisodesLoop_spec (podcastId : Int) (items : List Item) :
    ∀ (s : Store) (faults : List Bool) (n : Nat),
      ∃ new : List EpisodeRow,
        (insertEpisodesLoop podcastId items s faults n).store.episodes = s.episodes ++ new ∧
        (insertEpisodesLoop podcastId items s faults n).store.podcasts = s.podcasts ∧
        (insertEpisodesLoop podcastId items s faults n).store.archived_episodes
          = s.archived_episodes ∧
        (insertEpisodesLoop podcastId items s faults n).store.archivedSeq = s.archivedSeq ∧
        (insertEpisodesLoop podcastId items s faults n).count = n + new.length ∧
        (∀ row ∈ new, row.podcast_id = podcastId ∧ row.file_name = none ∧ row.downloaded = 0 ∧
          selectEpisode s podcastId row.url = none ∧
          row.url ∈ items.map (fun i => i.Enclosure.Url)) ∧
        (new.map (fun r => r.url)).Nodup := by
  induction items with
  | nil =>
    intro s faults n
    exact ⟨[], by simp [insertEpisodesLoop]⟩
  | cons item rest ih =>
    intro s faults n
    rw [insertEpisodesLoop_cons]
    rcases insertEpisodesItem_cases podcastId item s faults with ⟨hs, hi, -⟩ | ⟨hsel, he, hi, hs⟩
    · cases herr : (insertEpisodesItem podcastId item s faults).err with
      | some e => exact ⟨[], by simp [hs, hi]⟩
      | none =>
        simp only [hs, hi]
        obtain ⟨new, h1, h2, h3, h4, h5, h6, h7⟩ :=
          ih s (insertEpisodesItem podcastId item s faults).faults (n + 0)
        refine ⟨new, h1, h2, h3, h4, by simpa using h5, ?_, h7⟩
        intro row hrow
        obtain ⟨a, b, c, d, e⟩ := h6 row hrow
        exact ⟨a, b, c, d, List.mem_cons_of_mem _ e⟩
    · simp only [he, hi, hs]
      obtain ⟨new, h1, h2, h3, h4, h5, h6, h7⟩ :=
        ih { s with episodes := s.episodes ++ [newEpisodeRow s podcastId item.Enclosure.Url],
                    episodesSeq := (newEpisodeRow s podcastId item.Enclosure.Url).id }
          (insertEpisodesItem podcastId item s faults).faults (n + 1)
      have hold : ∀ row ∈ new, selectEpisode s podcastId row.url = none ∧
          row.url ≠ item.Enclosure.Url := by
        intro row hrow
        have hn := selectEpisode_none.mp (h6 row hrow).2.2.2.1
        constructor
        · apply selectEpisode_none.mpr
          intro r hr
          exact hn r (by simp [hr])
        · intro heq
          exact hn (newEpisodeRow s podcastId item.Enclosure.Url) (by simp)
            ⟨rfl, by simp [newEpisodeRow, heq]⟩
      refine ⟨newEpisodeRow s podcastId item.Enclosure.Url :: new, ?_, h2, h3, h4, ?_, ?_, ?_⟩
      · simpa using h1
      · rw [h5]; simp; omega
      · intro row hrow
        rcases List.mem_cons.mp hrow with rfl | hrow
        · exact ⟨rfl, rfl, rfl, hsel, by simp [newEpisodeRow]⟩
        · obtain ⟨a, b, c, -, e⟩ := h6 row hrow
          exact ⟨a, b, c, (hold row hrow).1, List.mem_cons_of_mem _ e⟩
      · simp only [List.map_cons, List.nodup_cons]
        refine ⟨?_, h7⟩
        intro hmem
        obtain ⟨row, hrow, hurl⟩ := List.mem_map.mp hmem
        exact (hold row hrow).2 (by simpa [newEpisodeRow] using hurl)

/-- A run that returns no error leaves a row for every address of the list. -/
theorem insertEpisodesLoop_present (podcastId : Int) (items : List Item) :
    ∀ (s : Store) (faults : List Bool) (n : Nat),
      (insertEpisodesLoop podcastId items s faults n).err = none →
      ∀ item ∈ items,
        (selectEpisode (insertEpisodesLoop podcastId items s faults n).store podcastId
          item.Enclosure.Url).isSome := by
  induction items with
  | nil => intro s faults n _ item hitem; simp at hitem
  | cons item rest ih =>
    intro s faults n herr x hx
    rw [insertEpisodesLoop_cons] at herr ⊢
    cases he : (insertEpisodesItem podcastId item s faults).err with
    | some e => simp [he] at herr
    | none =>
      simp only [he] at herr ⊢
      rcases List.mem_cons.mp hx with rfl | hx
      · -- the item itself: present right after its iteration, and rows are never removed
        have hnow : (selectEpisode (insertEpisodesItem podcastId x s faults).store podcastId
            x.Enclosure.Url).isSome := by
          rcases insertEpisodesItem_cases podcastId x s faults with ⟨hs, -, hp⟩ | ⟨-, -, -, hs⟩
          · rw [hs]; exact hp he
          · rw [hs]
            exact selectEpisode_isSome.mpr
              ⟨newEpisodeRow s podcastId x.Enclosure.Url, by simp, rfl, rfl⟩
        obtain ⟨r, hr, hk⟩ := selectEpisode_isSome.mp hnow
        obtain ⟨new, h1, -⟩ := insertEpisodesLoop_spec podcastId rest
          (insertEpisodesItem podcastId x s faults).store
          (insertEpisodesItem podcastId x s faults).faults
          (n + (insertEpisodesItem podcastId x s faults).inserted)
        exact selectEpisode_isSome.mpr ⟨r, by rw [h1]; simp [hr], hk⟩
      · exact ih _ _ _ herr x hx

/-- When every address of the list already has a row, a run changes nothing and counts
nothing, whatever the fault schedule. -/
theorem insertEpisodesLoop_noop (podcastId : Int) (items : List Item) (s : Store)
    (hall : ∀ item ∈ items, (selectEpisode s podcastId item.Enclosure.Url).isSome) :
    ∀ (faults : List Bool) (n : Nat),
      (insertEpisodesLoop podcastId items s faults n).store = s ∧
      (insertEpisodesLoop podcastId items s faults n).count = n := by
  induction items with
  | nil => intro faults n; simp [insertEpisodesLoop]
  | cons item rest ih =>
    intro faults n
    rw [insertEpisodesLoop_cons]
    rcases insertEpisodesItem_cases podcastId item s faults with ⟨hs, hi, -⟩ | ⟨hsel, -⟩
    · cases he : (insertEpisodesItem podcastId item s faults).err with
      | some e => simp [hs, hi]
      | none =>
        simp only [hs, hi]
        exact ih (fun x hx => hall x (List.mem_cons_of_mem _ hx)) _ _
    · have := hall item (by simp)
      simp [hsel] at this

theorem episodeKeys_nodup_step (podcastId : Int) (episodes : List Item) (s : Store)
    (faults : List Bool) (h : (episodeKeys s).Nodup) :
    (episodeKeys (InsertEpisodesToDB s faults podcastId episodes).store).Nodup := by
  obtain ⟨new, h1, -, -, -, -, h6, h7⟩ := insertEpisodesLoop_spec podcastId episodes s faults 0
  unfold episodeKeys InsertEpisodesToDB at *
  rw [h1, List.map_append]
  refine List.Nodup.append h ?_ ?_
  · -- the new rows have pairwise distinct addresses
    have hinj : (new.map (fun r => (r.podcast_id, r.url))) =
        (new.map (fun r => r.url)).map (fun u => (podcastId, u)) := by
      rw [List.map_map]
      apply List.map_congr_left
      intro r hr
      simp [(h6 r hr).1]
    rw [hinj]
    exact h7.map (fun a b hab => by simpa using hab)
  · -- and none of them repeats an old pair
    intro k hk hk2
    obtain ⟨r, hr, rfl⟩ := List.mem_map.mp hk
    obtain ⟨row, hrow, hrk⟩ := List.mem_map.mp hk2
    have hn := selectEpisode_none.mp (h6 row hrow).2.2.2.1 r hr
    simp only [Prod.mk.injEq] at hrk
    exact hn ⟨hrk.1.symm ▸ (h6 row hrow).1, hrk.2.symm⟩

theorem episodeKeys_nodup_reconcileAll (calls : List ReconcileCall) :
    ∀ s : Store, (episodeKeys s).Nodup → (episodeKeys (reconcileAll s calls)).Nodup := by
  induction calls with
  | nil => intro s h; simpa [reconcileAll] using h
  | cons c rest ih =>
    intro s h
    have := ih _ (episodeKeys_nodup_step c.podcastId c.episodes s c.faults h)
    simpa [reconcileAll] using this

/-! ## The claims about InsertEpisodesToDB -/

/-- C10: InsertEpisodesToDB is append-only. Whatever the database, the subscription id, the
fetched items and the faults met, the episodes relation afterwards is the one before followed
by new rows, each for the given subscription and not downloaded (so every old row is still
there with its id, podcast_id, url and downloaded value); archived_episodes and podcasts are
unchanged; and the row the lookup returns always carries the looked-up address, so the guard
of the archive-and-update branch is never true. -/
theorem insertEpisodesToDB_append_only (s : Store) (faults : List Bool) (podcastId : Int)
    (episodes : List Item) :
    (∃ new : List EpisodeRow,
      (InsertEpisodesToDB s faults podcastId episodes).store.episodes = s.episodes ++ new ∧
      ∀ row ∈ new, row.podcast_id = podcastId ∧ row.downloaded = 0 ∧ row.file_name = none) ∧
    (InsertEpisodesToDB s faults podcastId episodes).store.archived_episodes
      = s.archived_episodes ∧
    (InsertEpisodesToDB s faults podcastId episodes).store.podcasts = s.podcasts ∧
    (∀ (t : Store) (url : String) (existingEpisode : EpisodeRow),
      selectEpisode t podcastId url = some existingEpisode → ¬ (existingEpisode.url ≠ url)) := by
  obtain ⟨new, h1, h2, h3, -, -, h6, -⟩ := insertEpisodesLoop_spec podcastId episodes s faults 0
  refine ⟨⟨new, h1, ?_⟩, h3, h2, ?_⟩
  · intro row hrow
    obtain ⟨a, b, c, -⟩ := h6 row hrow
    exact ⟨a, c, b⟩
  · intro t url r hr hne
    exact hne (selectEpisode_some hr).2.2

/-- C2: idempotent reconciliation. If a call of InsertEpisodesToDB returns no error, the same
call on the database it left, under any fault schedule, returns the count 0 and leaves the
whole database (episodes and archived_episodes included) as it was. -/
theorem insertEpisodesToDB_idempotent (s : Store) (faults faults2 : List Bool) (podcastId : Int)
    (episodes : List Item)
    (h : (InsertEpisodesToDB s faults podcastId episodes).err = none) :
    (InsertEpisodesToDB (InsertEpisodesToDB s faults podcastId episodes).store faults2
        podcastId episodes).count = 0 ∧
    (InsertEpisodesToDB (InsertEpisodesToDB s faults podcastId episodes).store faults2
        podcastId episodes).store = (InsertEpisodesToDB s faults podcastId episodes).store := by
  have hall := insertEpisodesLoop_present podcastId episodes s faults 0 h
  have := insertEpisodesLoop_noop podcastId episodes _ hall faults2 0
  exact ⟨this.2, this.1⟩

theorem insertEpisodesToDB_idempotent_witness :
    (InsertEpisodesToDB emptyStore [] 1 [itemOf "ep1.mp3", itemOf "ep2.mp3"]).err = none ∧
    (InsertEpisodesToDB
        (InsertEpisodesToDB emptyStore [] 1 [itemOf "ep1.mp3", itemOf "ep2.mp3"]).store []
        1 [itemOf "ep1.mp3", itemOf "ep2.mp3"]).count = 0 ∧
    (InsertEpisodesToDB
        (InsertEpisodesToDB emptyStore [] 1 [itemOf "ep1.mp3", itemOf "ep2.mp3"]).store []
        1 [itemOf "ep1.mp3", itemOf "ep2.mp3"]).store
      = (InsertEpisodesToDB emptyStore [] 1 [itemOf "ep1.mp3", itemOf "ep2.mp3"]).store :=
  ⟨by decide, insertEpisodesToDB_idempotent emptyStore [] [] 1
    [itemOf "ep1.mp3", itemOf "ep2.mp3"] (by decide)⟩

/-- C3: dedup invariant. A call of InsertEpisodesToDB on a database whose episode rows have
pairwise distinct (podcast_id, url) pairs leaves such a database, for every subscription id,
item list (repeated addresses included) and fault schedule (runs cut short by an error
included); hence every sequence of calls from the empty database does. -/
theorem insertEpisodesToDB_dedup :
    (∀ (s : Store) (faults : List Bool) (podcastId : Int) (episodes : List Item),
      (episodeKeys s).Nodup →
      (episodeKeys (InsertEpisodesToDB s faults podcastId episodes).store).Nodup) ∧
    (∀ calls : List ReconcileCall, (episodeKeys (reconcileAll emptyStore calls)).Nodup) :=
  ⟨fun s faults podcastId episodes h => episodeKeys_nodup_step podcastId episodes s faults h,
   fun calls => episodeKeys_nodup_reconcileAll calls emptyStore (by simp [episodeKeys, emptyStore])⟩

theorem insertEpisodesToDB_dedup_witness :
    (episodeKeys ⟨[], [⟨1, 1, "ep1.mp3", none, 0⟩], 1, [], 0⟩).Nodup ∧
    (episodeKeys (InsertEpisodesToDB ⟨[], [⟨1, 1, "ep1.mp3", none, 0⟩], 1, [], 0⟩ [false, false, true]
      1 [itemOf "ep2.mp3", itemOf "ep1.mp3", itemOf "ep2.mp3", itemOf "ep3.mp3"]).store).Nodup :=
  ⟨by decide, insertEpisodesToDB_dedup.1 _ _ _ _ (by decide)⟩

/-- C4: new-episode count. When InsertEpisodesToDB returns no error, the rows it appended to
episodes are as many as the count it returns, which is the number of distinct addresses of
the list that had no row for the subscription before the call; every appended row is for the
subscription and not downloaded, and no two appended rows carry the same address (a repeated
address inserts nothing and is not counted). -/
theorem insertEpisodesToDB_count (s : Store) (faults : List Bool) (podcastId : Int)
    (episodes : List Item)
    (h : (InsertEpisodesToDB s faults podcastId episodes).err = none) :
    ∃ new : List EpisodeRow,
      (InsertEpisodesToDB s faults podcastId episodes).store.episodes = s.episodes ++ new ∧
      (InsertEpisodesToDB s faults podcastId episodes).count = new.length ∧
      (InsertEpisodesToDB s faults podcastId episodes).count =
        (((episodes.map (fun i => i.Enclosure.Url)).dedup).filter
          (fun u => (selectEpisode s podcastId u).isNone)).length ∧
      (∀ row ∈ new, row.podcast_id = podcastId ∧ row.downloaded = 0 ∧ row.file_name = none) ∧
      (new.map (fun r => r.url)).Nodup := by
  obtain ⟨new, h1, -, -, -, h5, h6, h7⟩ := insertEpisodesLoop_spec podcastId episodes s faults 0
  have hall := insertEpisodesLoop_present podcastId episodes s faults 0 h
  have hlen : (InsertEpisodesToDB s faults podcastId episodes).count = new.length := by
    simpa [InsertEpisodesToDB] using h5
  refine ⟨new, h1, hlen, ?_, ?_, h7⟩
  · rw [hlen, ← List.length_map new (fun r => r.url)]
    apply List.Perm.length_eq
    apply (List.perm_ext_iff_of_nodup h7 ((List.nodup_dedup _).filter _)).mpr
    intro u
    simp only [List.mem_filter, List.mem_dedup, Option.isNone_iff_eq_none]
    constructor
    · intro hu
      obtain ⟨row, hrow, rfl⟩ := List.mem_map.mp hu
      exact ⟨(h6 row hrow).2.2.2.2, (h6 row hrow).2.2.2.1⟩
    · rintro ⟨hu, habs⟩
      obtain ⟨item, hitem, rfl⟩ := List.mem_map.mp hu
      obtain ⟨r, hr, hk⟩ := selectEpisode_isSome.mp (hall item hitem)
      rw [h1] at hr
      rcases List.mem_append.mp hr with hr | hr
      · exact absurd hk (selectEpisode_none.mp habs r hr)
      · exact List.mem_map.mpr ⟨r, hr, hk.2⟩
  · intro row hrow
    obtain ⟨a, b, c, -⟩ := h6 row hrow
    exact ⟨a, c, b⟩

theorem insertEpisodesToDB_count_witness :
    (InsertEpisodesToDB emptyStore [] 1 [itemOf "ep1.mp3", itemOf "ep2.mp3"]).err = none ∧
    (InsertEpisodesToDB emptyStore [] 1 [itemOf "ep1.mp3", itemOf "ep2.mp3"]).count = 2 ∧
    ∃ new : List EpisodeRow,
      (InsertEpisodesToDB emptyStore [] 1 [itemOf "ep1.mp3", itemOf "ep2.mp3"]).store.episodes
        = emptyStore.episodes ++ new ∧
      (InsertEpisodesToDB emptyStore [] 1 [itemOf "ep1.mp3", itemOf "ep2.mp3"]).count
        = new.length ∧
      (InsertEpisodesToDB emptyStore [] 1 [itemOf "ep1.mp3", itemOf "ep2.mp3"]).count =
        ((([itemOf "ep1.mp3", itemOf "ep2.mp3"].map (fun i => i.Enclosure.Url)).dedup).filter
          (fun u => (selectEpisode emptyStore 1 u).isNone)).length ∧
      (∀ row ∈ new, row.podcast_id = 1 ∧ row.downloaded = 0 ∧ row.file_name = none) ∧
      (new.map (fun r => r.url)).Nodup :=
  ⟨by decide, by decide, insertEpisodesToDB_count emptyStore [] 1
    [itemOf "ep1.mp3", itemOf "ep2.mp3"] (by decide)⟩

/-- C1 (the code on the scenario of the claim): after [ep1.mp3, ep2.mp3] was reconciled into
the empty database and episode 1 marked downloaded, reconciling [ep1-fixed.mp3, ep2.mp3]
returns the count 1, archives nothing, leaves episode 1 at ep1.mp3 and appends a third,
not-downloaded episode for ep1-fixed.mp3. -/
theorem addressChange_inserts_instead_of_archiving :
    addressChangeScenario.count = 1 ∧
    addressChangeScenario.err = none ∧
    addressChangeScenario.store.archived_episodes = [] ∧
    addressChangeScenario.store.episodes =
      [⟨1, 1, "ep1.mp3", some "1_ep1.mp3", 1⟩, ⟨2, 1, "ep2.mp3", none, 0⟩,
       ⟨3, 1, "ep1-fixed.mp3", none, 0⟩] := by
  decide

/-! ## Download state -/

theorem KeepsDownloaded.refl (a : List EpisodeRow) : KeepsDownloaded a a :=
  fun _ r h => ⟨r, h, rfl, rfl, rfl, id⟩

theorem KeepsDownloaded.trans {a b c : List EpisodeRow} (h1 : KeepsDownloaded a b)
    (h2 : KeepsDownloaded b c) : KeepsDownloaded a c := by
  intro i r hr
  obtain ⟨r2, hr2, a1, a2, a3, a4⟩ := h1 i r hr
  obtain ⟨r3, hr3, b1, b2, b3, b4⟩ := h2 i r2 hr2
  exact ⟨r3, hr3, b1.trans a1, b2.trans a2, b3.trans a3, fun h => b4 (a4 h)⟩

theorem KeepsDownloaded.append (a new : List EpisodeRow) : KeepsDownloaded a (a ++ new) := by
  intro i r hr
  refine ⟨r, ?_, rfl, rfl, rfl, id⟩
  have hlt : i < a.length := (List.getElem?_eq_some_iff.mp hr).1
  rw [List.getElem?_append_left hlt]
  exact hr

/-- One iteration of the loop of InsertPodcastsToDB either fails and leaves the database as
it is, or finds the subscription and rewrites the addresses of the rows with its id, or does
not find it and appends a row under an id no row has. -/
theorem insertPodcastsItem_cases (userID : Int) (podcast : Podcast) (s : Store)
    (faults : List Bool) :
    ((insertPodcastsItem userID podcast s faults).store = s ∧
      (insertPodcastsItem userID podcast s faults).err ≠ none) ∨
    (∃ existingID, selectPodcastId s userID podcast.Text = some existingID ∧
      (insertPodcastsItem userID podcast s faults).err = none ∧
      (insertPodcastsItem userID podcast s faults).store =
        updatePodcastUrls s podcast.XMLUrl podcast.HTMLUrl podcast.ImageUrl existingID) ∨
    (selectPodcastId s userID podcast.Text = none ∧
      (insertPodcastsItem userID podcast s faults).err = none ∧
      (∀ r ∈ s.podcasts, r.id ≠ nextPodcastId s) ∧
      (insertPodcastsItem userID podcast s faults).store =
        { s with podcasts := s.podcasts ++ [⟨nextPodcastId s, userID, podcast.Text,
            podcast.XMLUrl, podcast.HTMLUrl, podcast.ImageUrl⟩] }) := by
  unfold insertPodcastsItem
  by_cases hf : faultNow faults = true
  · left; simp [hf]
  · simp only [hf]
    cases hsel : selectPodcastId s userID podcast.Text with
    | none =>
      by_cases hf2 : faultNow faults.tail = true
      · left; simp [hf2]
      · by_cases hf3 : faultNow faults.tail.tail = true
        · left; simp [hf2, hf3]
        · simp only [hf2, hf3]
          unfold insertPodcast
          by_cases hc : (s.podcasts.any (fun r => decide (r.id = nextPodcastId s)) ||
              s.podcasts.any (fun r => decide (r.user_id = userID ∧ r.name = podcast.Text)))
              = true
          · left; simp only [hc]; simp
          · right; right
            simp only [hc]
            refine ⟨trivial, by simp, ?_, by simp⟩
            intro r hr heq
            apply hc
            simp only [Bool.or_eq_true, List.any_eq_true, decide_eq_true_eq]
            exact Or.inl ⟨r, hr, heq⟩
    | some existingID =>
      by_cases hf2 : faultNow faults.tail = true
      · left; simp [hf2]
      · right; left
        exact ⟨existingID, rfl, by simp [hf2], by simp [hf2]⟩

theorem insertPodcastsItem_episodes (userID : Int) (podcast : Podcast) (s : Store)
    (faults : List Bool) :
    (insertPodcastsItem userID podcast s faults).store.episodes = s.episodes := by
  rcases insertPodcastsItem_cases userID podcast s faults with
    ⟨h, -⟩ | ⟨id, -, -, h⟩ | ⟨-, -, -, h⟩
  · rw [h]
  · rw [h]; rfl
  · rw [h]

theorem InsertPodcastsToDB_episodes (userID : Int) (podcasts : List Podcast) :
    ∀ (s : Store) (faults : List Bool),
      (InsertPodcastsToDB s faults userID podcasts).1.episodes = s.episodes := by
  induction podcasts with
  | nil => intro s faults; rfl
  | cons p rest ih =>
    intro s faults
    rw [InsertPodcastsToDB]
    cases he : (insertPodcastsItem userID p s faults).err with
    | some e => simp only; exact insertPodcastsItem_episodes userID p s faults
    | none =>
      simp only
      rw [ih]
      exact insertPodcastsItem_episodes userID p s faults

theorem applyOp_keepsDownloaded (s : Store) (op : Op) :
    KeepsDownloaded s.episodes (applyOp s op).episodes := by
  cases op with
  | insertPodcasts faults userID podcasts =>
    simp only [applyOp, InsertPodcastsToDB_episodes]
    exact KeepsDownloaded.refl _
  | insertEpisodes faults podcastId episodes =>
    obtain ⟨new, h1, -⟩ := insertEpisodesLoop_spec podcastId episodes s faults 0
    simp only [applyOp, InsertEpisodesToDB, h1]
    exact KeepsDownloaded.append _ _
  | markDownloaded fault episodeId fileName =>
    simp only [applyOp, MarkEpisodeAsDownloaded]
    by_cases hf : fault = true
    · simp only [hf, if_true]; exact KeepsDownloaded.refl _
    · simp only [hf]
      intro i r hr
      simp only [updateEpisodeDownloaded, List.getElem?_map, hr, Option.map_some',
        Bool.false_eq_true, if_false]
      by_cases hid : r.id = episodeId
      · exact ⟨{ r with downloaded := 1, file_name := some fileName }, by rw [if_pos hid],
          rfl, rfl, rfl, fun _ => rfl⟩
      · exact ⟨r, by rw [if_neg hid], rfl, rfl, rfl, id⟩

theorem applyOps_keepsDownloaded (ops : List Op) :
    ∀ s : Store, KeepsDownloaded s.episodes (applyOps s ops).episodes := by
  induction ops with
  | nil => intro s; exact KeepsDownloaded.refl _
  | cons op rest ih =>
    intro s
    have h := (applyOp_keepsDownloaded s op).trans (ih (applyOp s op))
    simpa [applyOps] using h

/-- C5: download state is monotonic. Take any database and any episode row of it, at place i
of the table, whose downloaded value is 1. After any one of InsertPodcastsToDB,
InsertEpisodesToDB and MarkEpisodeAsDownloaded, with any arguments and faults, the row at
place i still has that id, subscription and address and has downloaded = 1; and so it is
after any sequence of these operations. -/
theorem download_state_monotonic (s : Store) (i : Nat) (r : EpisodeRow)
    (hr : s.episodes[i]? = some r) (hd : r.downloaded = 1) :
    (∀ op : Op, ∃ r2 : EpisodeRow, (applyOp s op).episodes[i]? = some r2 ∧
      r2.id = r.id ∧ r2.podcast_id = r.podcast_id ∧ r2.url = r.url ∧ r2.downloaded = 1) ∧
    (∀ ops : List Op, ∃ r2 : EpisodeRow, (applyOps s ops).episodes[i]? = some r2 ∧
      r2.id = r.id ∧ r2.podcast_id = r.podcast_id ∧ r2.url = r.url ∧ r2.downloaded = 1) := by
  constructor
  · intro op
    obtain ⟨r2, h1, h2, h3, h4, h5⟩ := applyOp_keepsDownloaded s op i r hr
    exact ⟨r2, h1, h2, h3, h4, h5 hd⟩
  · intro ops
    obtain ⟨r2, h1, h2, h3, h4, h5⟩ := applyOps_keepsDownloaded ops s i r hr
    exact ⟨r2, h1, h2, h3, h4, h5 hd⟩

theorem download_state_monotonic_witness :
    addressChangeScenario.store.episodes[0]? = some ⟨1, 1, "ep1.mp3", some "1_ep1.mp3", 1⟩ ∧
    ∃ r2 : EpisodeRow,
      (applyOps addressChangeScenario.store
        [Op.insertEpisodes [] 1 [itemOf "ep1.mp3", itemOf "ep3.mp3"],
         Op.markDownloaded false 2 "2_ep2.mp3",
         Op.insertPodcasts [] 1 [⟨0, "Tech Talk", "http://feed", "", ""⟩]]).episodes[0]? = some r2 ∧
      r2.id = 1 ∧ r2.podcast_id = 1 ∧ r2.url = "ep1.mp3" ∧ r2.downloaded = 1 :=
  ⟨by decide,
    (download_state_monotonic addressChangeScenario.store 0
      ⟨1, 1, "ep1.mp3", some "1_ep1.mp3", 1⟩ (by decide) (by decide)).2 _⟩


/-! ## File names -/

theorem digitChar_of_lt_ten (d : Nat) (h : d < 10) :
    (Nat.digitChar d).toNat - 48 = d ∧ Nat.digitChar d ≠ '_' ∧ Nat.digitChar d ≠ '-' := by
  interval_cases d <;> decide

theorem toDigitsCore_eq_digits (n : Nat) :
    ∀ (fuel : Nat) (ds : List Char), n < fuel → 0 < n →
      Nat.toDigitsCore 10 fuel n ds = ((Nat.digits 10 n).reverse.map Nat.digitChar) ++ ds := by
  induction n using Nat.strong_induction_on with
  | _ n ih =>
    intro fuel ds hfuel hpos
    cases fuel with
    | zero => omega
    | succ f =>
      rw [Nat.toDigitsCore]
      have hd : Nat.digits 10 n = (n % 10) :: Nat.digits 10 (n / 10) :=
        Nat.digits_def' (by norm_num) hpos
      by_cases h0 : n / 10 = 0
      · simp [h0, hd]
      · simp only [h0, if_false]
        rw [ih (n / 10) (by omega) f _ (by omega) (by omega), hd]
        simp

/-- The characters of the decimal rendering of a natural number. -/
theorem repr_data (n : Nat) :
    (Nat.repr n).data =
      if n = 0 then ['0'] else (Nat.digits 10 n).reverse.map Nat.digitChar := by
  by_cases h : n = 0
  · subst h; rfl
  · simp only [h, if_false, Nat.repr, Nat.toDigits, List.asString]
    rw [toDigitsCore_eq_digits n (n + 1) [] (by omega) (by omega)]
    simp

/-- Reading the rendering back gives the number. -/
theorem repr_value (n : Nat) :
    Nat.ofDigits 10 (((Nat.repr n).data.map (fun c => c.toNat - 48)).reverse) = n := by
  rw [repr_data]
  by_cases h : n = 0
  · subst h; decide
  · simp only [h, if_false, List.map_map, List.map_reverse, List.reverse_reverse]
    have hid : (Nat.digits 10 n).map ((fun c => c.toNat - 48) ∘ Nat.digitChar)
        = Nat.digits 10 n := by
      conv_rhs => rw [← List.map_id (Nat.digits 10 n)]
      apply List.map_congr_left
      intro d hd
      exact (digitChar_of_lt_ten d (Nat.digits_lt_base (by norm_num) hd)).1
    rw [hid, Nat.ofDigits_digits]

theorem repr_injective {a b : Nat} (h : Nat.repr a = Nat.repr b) : a = b := by
  rw [← repr_value a, ← repr_value b, h]

theorem repr_chars (n : Nat) : ∀ c ∈ (Nat.repr n).data, c ≠ '_' ∧ c ≠ '-' := by
  intro c hc
  rw [repr_data] at hc
  by_cases h : n = 0
  · simp only [h, if_true, List.mem_singleton] at hc
    subst hc; exact ⟨by decide, by decide⟩
  · simp only [h, if_false, List.mem_map, List.mem_reverse] at hc
    obtain ⟨d, hd, rfl⟩ := hc
    exact (digitChar_of_lt_ten d (Nat.digits_lt_base (by norm_num) hd)).2

theorem fmtInt_chars (i : Int) : ∀ c ∈ (fmtInt i).data, c ≠ '_' := by
  intro c hc
  cases i with
  | ofNat n => exact (repr_chars n c hc).1
  | negSucc n =>
    simp only [fmtInt, String.data_append, List.mem_append] at hc
    rcases hc with hc | hc
    · have : c = '-' := by simpa using hc
      subst this; decide
    · exact (repr_chars _ c hc).1

theorem fmtInt_injective {a b : Int} (h : fmtInt a = fmtInt b) : a = b := by
  have hd : (fmtInt a).data = (fmtInt b).data := by rw [h]
  cases a with
  | ofNat n =>
    cases b with
    | ofNat m => exact congrArg Int.ofNat (repr_injective h)
    | negSucc m =>
      exfalso
      have hmem : '-' ∈ (Nat.repr n).data := by
        have : (Nat.repr n).data = '-' :: (Nat.repr (m + 1)).data := by
          simpa [fmtInt] using hd
        rw [this]; simp
      exact (repr_chars n _ hmem).2 rfl
  | negSucc n =>
    cases b with
    | ofNat m =>
      exfalso
      have hmem : '-' ∈ (Nat.repr m).data := by
        have : '-' :: (Nat.repr (n + 1)).data = (Nat.repr m).data := by
          simpa [fmtInt] using hd
        rw [← this]; simp
      exact (repr_chars m _ hmem).2 rfl
    | negSucc m =>
      have h2 : (Nat.repr (n + 1)).data = (Nat.repr (m + 1)).data := by
        simpa [fmtInt] using hd
      have h3 : n + 1 = m + 1 := repr_injective (String.ext h2)
      have h4 : n = m := by omega
      rw [h4]

/-- Two character lists without an underscore that are followed by an underscore in the
same list are equal. -/
theorem eq_of_append_underscore :
    ∀ (la lc x y : List Char), '_' ∉ la → '_' ∉ lc → la ++ '_' :: x = lc ++ '_' :: y →
      la = lc := by
  intro la
  induction la with
  | nil =>
    intro lc x y _ hc h
    cases lc with
    | nil => rfl
    | cons c lc =>
      simp only [List.nil_append, List.cons_append, List.cons.injEq] at h
      exact absurd (by rw [← h.1]; simp) hc
  | cons a la ih =>
    intro lc x y ha hc h
    cases lc with
    | nil =>
      simp only [List.nil_append, List.cons_append, List.cons.injEq] at h
      exact absurd (by rw [h.1]; simp) ha
    | cons c lc =>
      simp only [List.cons_append, List.cons.injEq] at h
      rw [h.1, ih lc x y (fun hm => ha (List.mem_cons_of_mem _ hm))
        (fun hm => hc (List.mem_cons_of_mem _ hm)) h.2]

theorem fileName_injective_id {e1 e2 : Episode} (h : fileName e1 = fileName e2) :
    e1.Id = e2.Id := by
  have hd : (fileName e1).data = (fileName e2).data := by rw [h]
  simp only [fileName, String.data_append] at hd
  rw [List.append_assoc, List.append_assoc, List.singleton_append, List.singleton_append] at hd
  have := eq_of_append_underscore _ _ _ _ (fun hm => fmtInt_chars _ _ hm rfl)
    (fun hm => fmtInt_chars _ _ hm rfl) hd
  exact fmtInt_injective (String.ext this)

/-- C9: destination file names. The name is the decimal rendering of the episode id, then an
underscore, then the base of the media address; it depends on the id and the address only;
it is the name the loop of DownloadNewEpisodes records for an episode it fetched; and two
episodes with different ids get different names, whatever their addresses are. -/
theorem fileName_unique :
    (∀ e : Episode, fileName e = fmtInt e.Id ++ "_" ++ Base e.URL) ∧
    (∀ e1 e2 : Episode, e1.Id = e2.Id → e1.URL = e2.URL → fileName e1 = fileName e2) ∧
    (∀ (env : Episode → DownloadOutcome) (e : Episode) (rest : List Episode) (s : Store),
      (env e).mkdirOk = true → (env e).requestOk = true → (env e).transferOk = true →
      (env e).markFault = false →
      downloadLoop env (e :: rest) s =
        downloadLoop env rest
          (updateEpisodeDownloaded s (fmtInt e.Id ++ "_" ++ Base e.URL) e.Id)) ∧
    (∀ e1 e2 : Episode, e1.Id ≠ e2.Id → fileName e1 ≠ fileName e2) := by
  refine ⟨fun _ => rfl, ?_, ?_, fun e1 e2 hne h => hne (fileName_injective_id h)⟩
  · intro e1 e2 h1 h2
    simp only [fileName, h1, h2]
  · intro env e rest s h1 h2 h3 h4
    rw [downloadLoop]
    simp [h1, h2, h3, h4, MarkEpisodeAsDownloaded, fileName]

theorem fileName_unique_witness :
    (1 : Int) ≠ 12 ∧
    fileName ⟨1, "Tech Talk", "http://a.example/2_x.mp3"⟩ = "1_2_x.mp3" ∧
    fileName ⟨12, "Tech Talk", "http://b.example/x.mp3"⟩ = "12_x.mp3" ∧
    fileName ⟨1, "Tech Talk", "http://a.example/2_x.mp3"⟩
      ≠ fileName ⟨12, "Tech Talk", "http://b.example/x.mp3"⟩ :=
  ⟨by decide, by decide, by decide, fileName_unique.2.2.2 _ _ (by decide)⟩

/-! ## DownloadNewEpisodes -/

/-- C8 (the code on a failing input): with two pending episodes, every directory created and
every transfer bound to succeed, the failure to build the request for the first address makes
DownloadNewEpisodes return that error at once; the second episode, whose own fetch would
succeed, is never fetched and stays not-downloaded. -/
theorem download_aborts_when_request_cannot_be_built :
    GetNewEpisodesFromDB badAddressStore =
      [⟨1, "Tech Talk", "http://example.com/%zz.mp3"⟩,
       ⟨2, "Tech Talk", "http://example.com/ep2.mp3"⟩] ∧
    (∀ e ∈ GetNewEpisodesFromDB badAddressStore, (badAddressEnv e).mkdirOk = true) ∧
    badAddressEnv ⟨2, "Tech Talk", "http://example.com/ep2.mp3"⟩ = ⟨true, true, true, false⟩ ∧
    (DownloadNewEpisodes badAddressStore false badAddressEnv).2 = some DownloadError.request ∧
    (DownloadNewEpisodes badAddressStore false badAddressEnv).1 = badAddressStore ∧
    (∀ r ∈ (DownloadNewEpisodes badAddressStore false badAddressEnv).1.episodes,
      r.downloaded = 0) := by
  decide

/-! ## CheckForNewEpisodes -/

theorem checkLoop_append (updateInfo : Store → Int → String → String → String → Store)
    (env : Podcast → PollOutcome) (pre post : List Podcast) :
    ∀ (s : Store) (n : Nat),
      checkLoop updateInfo env (pre ++ post) s n =
        checkLoop updateInfo env post (checkLoop updateInfo env pre s n).1
          (checkLoop updateInfo env pre s n).2 := by
  induction pre with
  | nil => intro s n; rfl
  | cons p rest ih =>
    intro s n
    simp only [List.cons_append]
    rw [checkLoop, checkLoop]
    cases hfeed : (env p).feed with
    | none => exact ih s n
    | some rss =>
      by_cases hu : (env p).updateFault = true
      · simp only [hu, if_true]; exact ih s n
      · simp only [hu]; exact ih _ _

theorem checkLoop_skip (updateInfo : Store → Int → String → String → String → Store)
    (env : Podcast → PollOutcome) (X : Podcast) (post : List Podcast) (s : Store) (n : Nat)
    (h : (env X).feed = none) :
    checkLoop updateInfo env (X :: post) s n = checkLoop updateInfo env post s n := by
  rw [checkLoop]; simp only [h]

theorem checkLoop_reconciliations (updateInfo : Store → Int → String → String → String → Store)
    (env : Podcast → PollOutcome) (ps : List Podcast) :
    ∀ (s : Store) (n : Nat),
      (reconciliations updateInfo env ps s).map (fun c => c.podcast)
        = ps.filter (reconciled env) ∧
      (∀ c ∈ reconciliations updateInfo env ps s,
        ∃ rss, (env c.podcast).feed = some rss ∧ c.items = feedEpisodes rss ∧
          c.result = InsertEpisodesToDB c.before (env c.podcast).insertFaults c.podcast.Id
            c.items) ∧
      (checkLoop updateInfo env ps s n).2 =
        n + ((reconciliations updateInfo env ps s).map (fun c => c.result.count)).sum ∧
      (checkLoop updateInfo env ps s n).1 =
        (reconciliations updateInfo env ps s).foldl (fun _ c => c.result.store) s := by
  induction ps with
  | nil => intro s n; simp [reconciliations, checkLoop]
  | cons p rest ih =>
    intro s n
    rw [checkLoop, reconciliations]
    cases hfeed : (env p).feed with
    | none =>
      obtain ⟨h1, h2, h3, h4⟩ := ih s n
      refine ⟨?_, h2, h3, h4⟩
      simp only [h1]
      rw [List.filter_cons_of_neg (by simp [reconciled, hfeed])]
    | some rss =>
      by_cases hu : (env p).updateFault = true
      · obtain ⟨h1, h2, h3, h4⟩ := ih s n
        simp only [hu, if_true]
        refine ⟨?_, h2, h3, h4⟩
        rw [h1, List.filter_cons_of_neg (by simp [reconciled, hu])]
      · simp only [hu]
        obtain ⟨h1, h2, h3, h4⟩ := ih
          (InsertEpisodesToDB
            (updateInfo s p.Id rss.Channel.Title rss.Channel.Description rss.Channel.Language)
            (env p).insertFaults p.Id (feedEpisodes rss)).store
          (n + (InsertEpisodesToDB
            (updateInfo s p.Id rss.Channel.Title rss.Channel.Description rss.Channel.Language)
            (env p).insertFaults p.Id (feedEpisodes rss)).count)
        refine ⟨?_, ?_, ?_, ?_⟩
        · simp only [Bool.false_eq_true, if_false, List.map_cons, h1]
          rw [List.filter_cons_of_pos (by simp [reconciled, hfeed, hu])]
        · intro c hc
          simp only [Bool.false_eq_true, if_false, List.mem_cons] at hc
          rcases hc with rfl | hc
          · exact ⟨rss, hfeed, rfl, rfl⟩
          · exact h2 c hc
        · simp only [Bool.false_eq_true, if_false, List.map_cons, List.sum_cons]
          rw [h3]; omega
        · simp only [Bool.false_eq_true, if_false, List.foldl_cons]
          exact h4

/-- C7: partial-failure isolation in CheckForNewEpisodes. For every list of subscriptions,
every assignment of outcomes to them and whatever UpdatePodcastInfo writes: a subscription
whose fetch fails is passed over (the run with it equals the run without it, so it changes no
row and does not stop the loop); InsertEpisodesToDB is called for exactly the subscriptions
whose fetch and metadata update succeed, in order, each with the items of its own feed; the
total at the end of the loop is the sum of the counts those calls returned; the database at
the end is the one the last call left; and a poll that could list the subscriptions reports
that total. -/
theorem checkForNewEpisodes_isolation
    (updateInfo : Store → Int → String → String → String → Store)
    (env : Podcast → PollOutcome) :
    (∀ (pre : List Podcast) (X : Podcast) (post : List Podcast) (s : Store) (n : Nat),
      (env X).feed = none →
      checkLoop updateInfo env (pre ++ X :: post) s n
        = checkLoop updateInfo env (pre ++ post) s n) ∧
    (∀ (ps : List Podcast) (s : Store),
      (reconciliations updateInfo env ps s).map (fun c => c.podcast)
        = ps.filter (reconciled env) ∧
      (∀ c ∈ reconciliations updateInfo env ps s,
        ∃ rss, (env c.podcast).feed = some rss ∧ c.items = feedEpisodes rss ∧
          c.result = InsertEpisodesToDB c.before (env c.podcast).insertFaults c.podcast.Id
            c.items) ∧
      (checkLoop updateInfo env ps s 0).2 =
        ((reconciliations updateInfo env ps s).map (fun c => c.result.count)).sum ∧
      (checkLoop updateInfo env ps s 0).1 =
        (reconciliations updateInfo env ps s).foldl (fun _ c => c.result.store) s) ∧
    (∀ s : Store,
      (CheckForNewEpisodes updateInfo s false env).2 =
        some (((reconciliations updateInfo env (GetPodcastsFromDB s DEFAULT_USER_ID) s).map
          (fun c => c.result.count)).sum)) := by
  refine ⟨?_, ?_, ?_⟩
  · intro pre X post s n h
    rw [checkLoop_append, checkLoop_append, checkLoop_skip _ _ _ _ _ _ h]
  · intro ps s
    obtain ⟨h1, h2, h3, h4⟩ := checkLoop_reconciliations updateInfo env ps s 0
    exact ⟨h1, h2, by simpa using h3, h4⟩
  · intro s
    obtain ⟨-, -, h3, -⟩ := checkLoop_reconciliations updateInfo env
      (GetPodcastsFromDB s DEFAULT_USER_ID) s 0
    simp only [CheckForNewEpisodes, Bool.false_eq_true, if_false, h3, Nat.zero_add]

theorem checkForNewEpisodes_isolation_witness :
    (samplePoll ⟨1, "", "http://x.example/feed", "", ""⟩).feed = none ∧
    checkLoop (fun s _ _ _ _ => s) samplePoll
        ([] ++ ⟨1, "", "http://x.example/feed", "", ""⟩ ::
          [⟨2, "", "http://z.example/feed", "", ""⟩, ⟨3, "", "http://y.example/feed", "", ""⟩])
        emptyStore 0
      = checkLoop (fun s _ _ _ _ => s) samplePoll
        ([] ++ [⟨2, "", "http://z.example/feed", "", ""⟩, ⟨3, "", "http://y.example/feed", "", ""⟩])
        emptyStore 0 ∧
    (checkLoop (fun s _ _ _ _ => s) samplePoll
        [⟨1, "", "http://x.example/feed", "", ""⟩, ⟨2, "", "http://z.example/feed", "", ""⟩,
         ⟨3, "", "http://y.example/feed", "", ""⟩] emptyStore 0).2 = 2 ∧
    (checkLoop (fun s _ _ _ _ => s) samplePoll
        [⟨1, "", "http://x.example/feed", "", ""⟩, ⟨2, "", "http://z.example/feed", "", ""⟩,
         ⟨3, "", "http://y.example/feed", "", ""⟩] emptyStore 0).1.episodes
      = [⟨1, 3, "ep1.mp3", none, 0⟩, ⟨2, 3, "ep2.mp3", none, 0⟩] :=
  ⟨by decide,
   (checkForNewEpisodes_isolation (fun s _ _ _ _ => s) samplePoll).1 [] _ _ emptyStore 0
     (by decide),
   by decide, by decide⟩

/-! ## InsertPodcastsToDB -/

theorem applyWrites_cons (w : Int × String × String × String)
    (ws : List (Int × String × String × String)) (r : PodcastRow) :
    applyWrites (w :: ws) r = applyWrites ws (writeRow w r) := by
  have hid : (writeRow w r).id = r.id := by
    unfold writeRow; split <;> rfl
  unfold applyWrites
  rw [hid, lastWrite]
  cases hl : lastWrite ws r.id with
  | some u =>
    simp only
    unfold writeRow; split <;> rfl
  | none =>
    simp only
    unfold writeRow
    by_cases h : r.id = w.1
    · simp [h]
    · simp [h]

theorem applyWrites_rowKey (ws : List (Int × String × String × String)) (r : PodcastRow) :
    rowKey (applyWrites ws r) = rowKey r := by
  unfold applyWrites; split <;> rfl

theorem applyWrites_idem (ws : List (Int × String × String × String)) (r : PodcastRow) :
    applyWrites ws (applyWrites ws r) = applyWrites ws r := by
  cases hl : lastWrite ws r.id with
  | some u =>
    have e1 : applyWrites ws r = setPodcastUrls u.1 u.2.1 u.2.2 r := by
      unfold applyWrites; rw [hl]
    have e2 : (setPodcastUrls u.1 u.2.1 u.2.2 r).id = r.id := rfl
    rw [e1]
    unfold applyWrites
    rw [e2, hl]
    rfl
  | none =>
    have e1 : applyWrites ws r = r := by
      unfold applyWrites; rw [hl]
    rw [e1, e1]

theorem writeRow_rowKey (w : Int × String × String × String) (r : PodcastRow) :
    rowKey (writeRow w r) = rowKey r := by
  unfold writeRow; split <;> rfl

theorem selectPodcastId_eq_keyLookup (s : Store) (userID : Int) (name : String) :
    selectPodcastId s userID name = keyLookup (s.podcasts.map rowKey) userID name := by
  unfold selectPodcastId keyLookup
  rw [List.find?_map, Option.map_map]
  rfl

theorem keyLookup_append_left {a b : List (Int × Int × String)} {userID : Int} {name : String}
    {id : Int} (h : keyLookup a userID name = some id) :
    keyLookup (a ++ b) userID name = some id := by
  unfold keyLookup at *
  rw [List.find?_append]
  cases hf : a.find? (fun k => decide (k.2.1 = userID ∧ k.2.2 = name)) with
  | none => rw [hf] at h; exact absurd h (by simp)
  | some k => rw [hf] at h; exact h

theorem keyLookup_some_mem {a : List (Int × Int × String)} {userID : Int} {name : String}
    {id : Int} (h : keyLookup a userID name = some id) :
    ∃ k ∈ a, k.1 = id := by
  unfold keyLookup at h
  cases hf : a.find? (fun k => decide (k.2.1 = userID ∧ k.2.2 = name)) with
  | none => rw [hf] at h; exact absurd h (by simp)
  | some k =>
    rw [hf] at h
    exact ⟨k, List.mem_of_find?_eq_some hf, by simpa using h⟩

/-- An iteration for a subscription the lookup finds: two statements, then the UPDATE done. -/
theorem insertPodcastsItem_found (userID : Int) (podcast : Podcast) (t : Store)
    (faults : List Bool) (id : Int) (h : selectPodcastId t userID podcast.Text = some id) :
    insertPodcastsItem userID podcast t faults =
      if faultNow faults then ⟨t, faults.tail, some .io⟩
      else if faultNow faults.tail then ⟨t, faults.tail.tail, some .io⟩
      else ⟨updatePodcastUrls t podcast.XMLUrl podcast.HTMLUrl podcast.ImageUrl id,
        faults.tail.tail, none⟩ := by
  unfold insertPodcastsItem
  simp only [h]

/-- An iteration that returns no error acts on the podcast rows as: append at most one row,
under an id no row had, then write the addresses on the rows of one id, which is the id the
lookup of the subscription returns from then on. -/
theorem insertPodcastsItem_ok (userID : Int) (podcast : Podcast) (s : Store)
    (faults : List Bool) (h : (insertPodcastsItem userID podcast s faults).err = none) :
    ∃ (id : Int) (N : List PodcastRow),
      (insertPodcastsItem userID podcast s faults).store.podcasts =
        (s.podcasts ++ N).map
          (writeRow (id, podcast.XMLUrl, podcast.HTMLUrl, podcast.ImageUrl)) ∧
      (∀ r ∈ N, ∀ r0 ∈ s.podcasts, r.id ≠ r0.id) ∧
      (∀ r ∈ N, ∀ r0 ∈ s.podcasts, (r.user_id, r.name) ≠ (r0.user_id, r0.name)) ∧
      (N.map (fun r => (r.user_id, r.name))).Nodup ∧
      keyLookup ((s.podcasts ++ N).map rowKey) userID podcast.Text = some id := by
  rcases insertPodcastsItem_cases userID podcast s faults with
    ⟨-, he⟩ | ⟨id, hsel, -, hs⟩ | ⟨hsel, -, hfresh, hs⟩
  · exact absurd h he
  · refine ⟨id, [], ?_, by simp, by simp, by simp, ?_⟩
    · rw [hs]; simp [updatePodcastUrls, writeRow]
    · rw [List.append_nil, ← selectPodcastId_eq_keyLookup]; exact hsel
  · refine ⟨nextPodcastId s, [⟨nextPodcastId s, userID, podcast.Text, podcast.XMLUrl,
      podcast.HTMLUrl, podcast.ImageUrl⟩], ?_, ?_, ?_, by simp, ?_⟩
    · rw [hs]
      simp only [List.map_append, List.map_cons, List.map_nil]
      congr 1
      · conv_lhs => rw [← List.map_id s.podcasts]
        apply List.map_congr_left
        intro r hr
        simp [writeRow, hfresh r hr]
      · simp [writeRow, setPodcastUrls]
    · intro r hr r0 hr0
      simp only [List.mem_singleton] at hr
      subst hr
      exact fun heq => hfresh r0 hr0 heq.symm
    · intro r hr r0 hr0 heq
      simp only [List.mem_singleton] at hr
      subst hr
      rw [selectPodcastId_eq_keyLookup] at hsel
      unfold keyLookup at hsel
      simp only [Option.map_eq_none', List.find?_eq_none, List.mem_map] at hsel
      have := hsel (rowKey r0) ⟨r0, hr0, rfl⟩
      simp only [Prod.mk.injEq] at heq
      simp [rowKey, heq.1.symm, heq.2.symm] at this
    · rw [selectPodcastId_eq_keyLookup] at hsel
      unfold keyLookup at hsel ⊢
      simp only [Option.map_eq_none'] at hsel
      rw [List.map_append, List.find?_append, hsel]
      simp [rowKey]

theorem faultNow_of_all_false {faults : List Bool} (h : ∀ b ∈ faults, b = false) :
    faultNow faults = false ∧ ∀ b ∈ faults.tail, b = false := by
  cases faults with
  | nil => simp [faultNow]
  | cons b bs =>
    refine ⟨?_, fun x hx => h x (List.mem_cons_of_mem _ hx)⟩
    simpa [faultNow] using h b (by simp)

theorem applyWrites_nil (r : PodcastRow) : applyWrites [] r = r := rfl

theorem updatePodcastUrls_podcasts (t : Store) (xml html image : String) (id : Int) :
    (updatePodcastUrls t xml html image id).podcasts
      = t.podcasts.map (writeRow (id, xml, html, image)) := rfl

theorem map_rowKey_writeRow (w : Int × String × String × String) (l : List PodcastRow) :
    (l.map (writeRow w)).map rowKey = l.map rowKey := by
  rw [List.map_map]
  apply List.map_congr_left
  intro r _
  exact writeRow_rowKey w r

theorem map_rowKey_applyWrites (ws : List (Int × String × String × String))
    (l : List PodcastRow) : (l.map (applyWrites ws)).map rowKey = l.map rowKey := by
  rw [List.map_map]
  apply List.map_congr_left
  intro r _
  exact applyWrites_rowKey ws r

/-- The shape of a run of InsertPodcastsToDB that returns no error: it appends rows N under
fresh ids and fresh (user_id, name) pairs and performs a sequence W of address writes; and
any later run of the same list, on a database with the same keys, performs only the same
writes, as far as it gets. -/
theorem InsertPodcastsToDB_shape (userID : Int) (podcasts : List Podcast) :
    ∀ (s : Store) (faults : List Bool),
      (InsertPodcastsToDB s faults userID podcasts).2 = none →
      ∃ (W : List (Int × String × String × String)) (N : List PodcastRow),
        (InsertPodcastsToDB s faults userID podcasts).1.podcasts
          = (s.podcasts ++ N).map (applyWrites W) ∧
        (∀ r ∈ N, ∀ r0 ∈ s.podcasts, r.id ≠ r0.id) ∧
        (∀ r ∈ N, ∀ r0 ∈ s.podcasts, (r.user_id, r.name) ≠ (r0.user_id, r0.name)) ∧
        (N.map (fun r => (r.user_id, r.name))).Nodup ∧
        (∀ (t : Store) (faults2 : List Bool),
          t.podcasts.map rowKey = (s.podcasts ++ N).map rowKey →
          (InsertPodcastsToDB t faults2 userID podcasts).1.podcasts.map rowKey
            = t.podcasts.map rowKey ∧
          ((InsertPodcastsToDB t faults2 userID podcasts).2 = none →
            (InsertPodcastsToDB t faults2 userID podcasts).1.podcasts
              = t.podcasts.map (applyWrites W)) ∧
          ((∀ b ∈ faults2, b = false) →
            (InsertPodcastsToDB t faults2 userID podcasts).2 = none)) := by
  induction podcasts with
  | nil =>
    intro s faults _
    have hid : applyWrites [] = id := funext applyWrites_nil
    refine ⟨[], [], ?_, by simp, by simp, by simp, ?_⟩
    · simp [InsertPodcastsToDB, hid]
    · intro t faults2 _
      simp [InsertPodcastsToDB, hid]
  | cons p rest ih =>
    intro s faults h
    rw [InsertPodcastsToDB] at h ⊢
    cases he : (insertPodcastsItem userID p s faults).err with
    | some e => simp [he] at h
    | none =>
      simp only [he] at h ⊢
      obtain ⟨id, N0, a1, a2, a3, a4, a5⟩ := insertPodcastsItem_ok userID p s faults he
      obtain ⟨W1, N1, b1, b2, b3, b4, b5⟩ := ih _ _ h
      -- the rows of the database after the first iteration, up to their addresses
      have hmem : ∀ r0 ∈ s.podcasts ++ N0,
          writeRow (id, p.XMLUrl, p.HTMLUrl, p.ImageUrl) r0
            ∈ (insertPodcastsItem userID p s faults).store.podcasts := by
        intro r0 hr0
        rw [a1]; exact List.mem_map_of_mem _ hr0
      have hkey : ∀ r0 : PodcastRow,
          (writeRow (id, p.XMLUrl, p.HTMLUrl, p.ImageUrl) r0).id = r0.id ∧
          (writeRow (id, p.XMLUrl, p.HTMLUrl, p.ImageUrl) r0).user_id = r0.user_id ∧
          (writeRow (id, p.XMLUrl, p.HTMLUrl, p.ImageUrl) r0).name = r0.name := by
        intro r0
        have := writeRow_rowKey (id, p.XMLUrl, p.HTMLUrl, p.ImageUrl) r0
        simp only [rowKey, Prod.mk.injEq] at this
        exact this
      -- the id written by the first iteration belongs to a row present after it
      obtain ⟨k, hk, hkid⟩ := keyLookup_some_mem a5
      obtain ⟨rid, hrid, rfl⟩ := List.mem_map.mp hk
      have hN1 : N1.map (writeRow (id, p.XMLUrl, p.HTMLUrl, p.ImageUrl)) = N1 := by
        conv_rhs => rw [← List.map_id N1]
        apply List.map_congr_left
        intro r hr
        have hne : r.id ≠ id := by
          have := b2 r hr _ (hmem rid hrid)
          rw [(hkey rid).1] at this
          intro heq; exact this (heq.trans hkid.symm)
        simp [writeRow, hne]
      refine ⟨(id, p.XMLUrl, p.HTMLUrl, p.ImageUrl) :: W1, N0 ++ N1, ?_, ?_, ?_, ?_, ?_⟩
      · rw [b1, a1, ← List.append_assoc]
        conv_lhs => rw [← hN1]
        rw [← List.map_append, List.map_map]
        apply List.map_congr_left
        intro r _
        exact (applyWrites_cons _ _ r).symm
      · intro r hr r0 hr0
        rcases List.mem_append.mp hr with hr | hr
        · exact a2 r hr r0 hr0
        · have := b2 r hr _ (hmem r0 (List.mem_append_left _ hr0))
          rwa [(hkey r0).1] at this
      · intro r hr r0 hr0
        rcases List.mem_append.mp hr with hr | hr
        · exact a3 r hr r0 hr0
        · have := b3 r hr _ (hmem r0 (List.mem_append_left _ hr0))
          rwa [(hkey r0).2.1, (hkey r0).2.2] at this
      · rw [List.map_append]
        refine List.Nodup.append a4 b4 ?_
        intro x hx0 hx1
        obtain ⟨r0, hr0, rfl⟩ := List.mem_map.mp hx0
        obtain ⟨r1, hr1, hx⟩ := List.mem_map.mp hx1
        have := b3 r1 hr1 _ (hmem r0 (List.mem_append_right _ hr0))
        rw [(hkey r0).2.1, (hkey r0).2.2] at this
        exact this hx
      · intro t faults2 ht
        have hlook : selectPodcastId t userID p.Text = some id := by
          rw [selectPodcastId_eq_keyLookup, ht, ← List.append_assoc, List.map_append]
          exact keyLookup_append_left a5
        have ht1 : (updatePodcastUrls t p.XMLUrl p.HTMLUrl p.ImageUrl id).podcasts.map rowKey
            = ((insertPodcastsItem userID p s faults).store.podcasts ++ N1).map rowKey := by
          rw [updatePodcastUrls_podcasts, map_rowKey_writeRow, ht, a1, List.map_append,
            List.map_append, List.map_append, map_rowKey_writeRow, List.map_append,
            List.append_assoc]
        rw [InsertPodcastsToDB, insertPodcastsItem_found userID p t faults2 id hlook]
        by_cases f1 : faultNow faults2 = true
        · simp only [f1, if_true]
          refine ⟨trivial, fun hc => by simp at hc, fun hall => ?_⟩
          rw [(faultNow_of_all_false hall).1] at f1
          exact absurd f1 (by simp)
        · by_cases f2 : faultNow faults2.tail = true
          · simp only [f1, f2, if_true]
            refine ⟨rfl, fun hc => by simp at hc, fun hall => ?_⟩
            rw [(faultNow_of_all_false (faultNow_of_all_false hall).2).1] at f2
            exact absurd f2 (by simp)
          · simp only [f1, f2]
            obtain ⟨c1, c2, c3⟩ := b5 (updatePodcastUrls t p.XMLUrl p.HTMLUrl p.ImageUrl id)
              faults2.tail.tail ht1
            refine ⟨?_, ?_, ?_⟩
            · simp only [Bool.false_eq_true, if_false]
              rw [c1, updatePodcastUrls_podcasts, map_rowKey_writeRow]
            · intro hnone
              simp only [Bool.false_eq_true, if_false] at hnone ⊢
              rw [c2 hnone, updatePodcastUrls_podcasts, List.map_map]
              apply List.map_congr_left
              intro r _
              exact (applyWrites_cons _ _ r).symm
            · intro hall
              simp only [Bool.false_eq_true, if_false]
              exact c3 (faultNow_of_all_false (faultNow_of_all_false hall).2).2

theorem uniqueOwnerName_of_keys {s t : Store} (h : podcastKeys t = podcastKeys s)
    (hs : UniqueOwnerName s) : UniqueOwnerName t := by
  have key : ∀ u : Store, u.podcasts.map (fun r => (r.user_id, r.name))
      = (podcastKeys u).map (fun k => (k.2.1, k.2.2)) := by
    intro u
    simp [podcastKeys, rowKey, List.map_map, Function.comp_def]
  unfold UniqueOwnerName at *
  rw [key] at hs ⊢
  rw [h]; exact hs

/-- C6: upsert stability of subscriptions. If InsertPodcastsToDB returns no error on a list
(names may repeat), then running it again on the database it left, under any fault
schedule, leaves the same podcast rows in place with the same id, owner and name; when that
second run returns no error, as it always does when no statement fails, the podcasts
relation is exactly the one the first run left, addresses included; and if (user_id, name)
was unique at the start it is unique after the first and after the second run. -/
theorem insertPodcastsToDB_upsert_stable (s : Store) (faults faults2 : List Bool)
    (userID : Int) (podcasts : List Podcast)
    (h : (InsertPodcastsToDB s faults userID podcasts).2 = none) :
    podcastKeys (InsertPodcastsToDB (InsertPodcastsToDB s faults userID podcasts).1 faults2
        userID podcasts).1
      = podcastKeys (InsertPodcastsToDB s faults userID podcasts).1 ∧
    ((InsertPodcastsToDB (InsertPodcastsToDB s faults userID podcasts).1 faults2
        userID podcasts).2 = none →
      (InsertPodcastsToDB (InsertPodcastsToDB s faults userID podcasts).1 faults2
          userID podcasts).1.podcasts
        = (InsertPodcastsToDB s faults userID podcasts).1.podcasts) ∧
    ((∀ b ∈ faults2, b = false) →
      (InsertPodcastsToDB (InsertPodcastsToDB s faults userID podcasts).1 faults2
        userID podcasts).2 = none) ∧
    (UniqueOwnerName s →
      UniqueOwnerName (InsertPodcastsToDB s faults userID podcasts).1 ∧
      UniqueOwnerName (InsertPodcastsToDB (InsertPodcastsToDB s faults userID podcasts).1
        faults2 userID podcasts).1) := by
  obtain ⟨W, N, h1, -, h3, h4, h5⟩ := InsertPodcastsToDB_shape userID podcasts s faults h
  have hk : (InsertPodcastsToDB s faults userID podcasts).1.podcasts.map rowKey
      = (s.podcasts ++ N).map rowKey := by
    rw [h1, map_rowKey_applyWrites]
  obtain ⟨c1, c2, c3⟩ := h5 (InsertPodcastsToDB s faults userID podcasts).1 faults2 hk
  refine ⟨c1, ?_, c3, ?_⟩
  · intro hnone
    rw [c2 hnone, h1, List.map_map]
    apply List.map_congr_left
    intro r _
    exact applyWrites_idem W r
  · intro hu
    have hfirst : UniqueOwnerName (InsertPodcastsToDB s faults userID podcasts).1 := by
      have e : (InsertPodcastsToDB s faults userID podcasts).1.podcasts.map
          (fun r => (r.user_id, r.name)) = (s.podcasts ++ N).map (fun r => (r.user_id, r.name)) := by
        have := congrArg (List.map (fun k : Int × Int × String => (k.2.1, k.2.2))) hk
        simpa [List.map_map, Function.comp_def, rowKey] using this
      unfold UniqueOwnerName at hu ⊢
      rw [e, List.map_append]
      refine List.Nodup.append hu h4 ?_
      intro x hx0 hx1
      obtain ⟨r0, hr0, rfl⟩ := List.mem_map.mp hx0
      obtain ⟨r1, hr1, hx⟩ := List.mem_map.mp hx1
      exact h3 r1 hr1 r0 hr0 hx
    exact ⟨hfirst, uniqueOwnerName_of_keys c1 hfirst⟩

theorem insertPodcastsToDB_upsert_stable_witness :
    (InsertPodcastsToDB emptyStore [] 1 sampleImport).2 = none ∧
    (InsertPodcastsToDB emptyStore [] 1 sampleImport).1.podcasts =
      [⟨1, 1, "Tech Talk", "http://b.example/feed", "http://b.example", "http://b.example/i.png"⟩,
       ⟨2, 1, "Other", "http://o.example/feed", "", ""⟩] ∧
    (InsertPodcastsToDB (InsertPodcastsToDB emptyStore [] 1 sampleImport).1 [] 1
        sampleImport).1.podcasts
      = (InsertPodcastsToDB emptyStore [] 1 sampleImport).1.podcasts :=
  ⟨by decide, by decide,
   (insertPodcastsToDB_upsert_stable emptyStore [] [] 1 sampleImport (by decide)).2.1
     (by decide)⟩

end Podcaster
